import Mathlib

/-!
Verification of the BookReader Navigation & Viewport Coordinator
(`src/BookReader.js`) against its natural-language specification.

The JavaScript source is shallowly embedded: pure functions become Lean
functions, stateful methods become explicit state-passing functions on a
`BRState` record, thrown exceptions become `Except`, and JS strings are
modelled as `List Char`.  JS numbers that hold zoom factors are modelled
as rationals (the values in play are exact small decimals); page indices
and mode constants are naturals.
-/

namespace BookReader

/-! ## Mode constants (`BookReader.constMode1up` etc.) -/

def constMode1up : Nat := 1
def constMode2up : Nat := 2
def constModeThumb : Nat := 3

/-! ## ReductionFactorEngine

Embeds `BookReader.prototype.quantizeReduce` and
`BookReader.prototype.nextReduce`.  A `ReductionFactor` is
`{ reduce: number, autofit?: string }`; an absent `autofit` is `none`. -/

structure ReductionFactor where
  reduce : ℚ
  autofit : Option String
deriving DecidableEq, Repr

/-- The loop of `quantizeReduce`: `quantized`/`distance` are the running
candidate and its distance; each element overwrites them exactly when its
distance is strictly smaller (`newDistance < distance`). -/
def quantizeGo (reduce : ℚ) (quantized : ℚ) (distance : ℚ) :
    List ReductionFactor → ℚ
  | [] => quantized
  | rf :: rest =>
    let newDistance := |reduce - rf.reduce|
    if newDistance < distance then
      quantizeGo reduce rf.reduce newDistance rest
    else
      quantizeGo reduce quantized distance rest

/-- `BookReader.prototype.quantizeReduce(reduce, reductionFactors)`.
The JS reads `reductionFactors[0]` unconditionally, so an empty list is a
`TypeError` there; we return `none` for that case. -/
def quantizeReduce (reduce : ℚ) (reductionFactors : List ReductionFactor) :
    Option ℚ :=
  match reductionFactors with
  | [] => none
  | rf0 :: rest => some (quantizeGo reduce rf0.reduce (|reduce - rf0.reduce|) rest)

/-- The `direction === 'in'` loop of `nextReduce`: `for (i = 1; ...)` over the
tail, overwriting `newReduceIndex` (the accumulator) with the position `i`
whenever `reductionFactors[i].reduce < currentReduce`. -/
def nextReduceInLoop (currentReduce : ℚ) :
    List ReductionFactor → Nat → Nat → Nat
  | [], _, acc => acc
  | rf :: rest, i, acc =>
    nextReduceInLoop currentReduce rest (i + 1)
      (if rf.reduce < currentReduce then i else acc)

/-- The `direction === 'out'` loop of `nextReduce`: `for (i = lastIndex; i >= 0;
i--)`, overwriting `newReduceIndex` with `i` whenever
`reductionFactors[i].reduce > currentReduce`.  `i` counts down. -/
def nextReduceOutLoop (currentReduce : ℚ) (factors : List ReductionFactor) :
    Nat → Nat → Nat
  | 0, acc =>
    match factors.get? 0 with
    | some rf => if rf.reduce > currentReduce then 0 else acc
    | none => acc
  | i + 1, acc =>
    nextReduceOutLoop currentReduce factors i
      (match factors.get? (i + 1) with
       | some rf => if rf.reduce > currentReduce then i + 1 else acc
       | none => acc)

/-- The `direction === 'auto'` candidate scan of `nextReduce`:
`choice = null; for candidates: if (choice === null || choice.reduce <
candidates[i].reduce) choice = candidates[i]`. -/
def nextReduceAutoChoice (candidates : List ReductionFactor) :
    Option ReductionFactor :=
  candidates.foldl
    (fun choice cand =>
      match choice with
      | none => some cand
      | some c => if c.reduce < cand.reduce then some cand else some c)
    none

/-- `BookReader.prototype.nextReduce(currentReduce, direction,
reductionFactors)`.  Out-of-range array reads (possible only when
`reductionFactors` is empty) yield JS `undefined`, modelled as `none`. -/
def nextReduce (currentReduce : ℚ) (direction : String)
    (reductionFactors : List ReductionFactor) : Option ReductionFactor :=
  if direction = "in" then
    reductionFactors.get?
      (nextReduceInLoop currentReduce (reductionFactors.drop 1) 1 0)
  else if direction = "out" then
    match reductionFactors with
    | [] => none
    | _ :: _ =>
      let lastIndex := reductionFactors.length - 1
      reductionFactors.get?
        (nextReduceOutLoop currentReduce reductionFactors lastIndex lastIndex)
  else if direction = "auto" then
    match reductionFactors.find? (fun rf => rf.autofit = some "auto") with
    | some autoMatch => some autoMatch
    | none =>
      let candidates := reductionFactors.filter
        (fun rf => rf.autofit = some "height" || rf.autofit = some "width")
      match nextReduceAutoChoice candidates with
      | some choice => some choice
      | none => reductionFactors.get? 0
  else if direction = "height" || direction = "width" then
    match reductionFactors.find? (fun rf => rf.autofit = some direction) with
    | some m => some m
    | none => reductionFactors.get? 0
  else
    reductionFactors.get? 0

/-! ## Theorems: ReductionFactorEngine -/

/-- Loop invariant of `quantizeGo`: starting from candidate `q` at its true
distance, the scan returns either the seed (when nothing beats it) or the
first element that attains the minimal distance, with every earlier element
strictly farther away. -/
theorem quantizeGo_spec (x : ℚ) :
    ∀ (l : List ReductionFactor) (q : ℚ),
      (quantizeGo x q (|x - q|) l = q ∧ ∀ f ∈ l, |x - q| ≤ |x - f.reduce|) ∨
      (∃ i f, l.get? i = some f ∧ quantizeGo x q (|x - q|) l = f.reduce ∧
        |x - f.reduce| < |x - q| ∧
        (∀ j g, j < i → l.get? j = some g → |x - f.reduce| < |x - g.reduce|) ∧
        (∀ j g, l.get? j = some g → |x - f.reduce| ≤ |x - g.reduce|)) := by
  intro l
  induction l with
  | nil => intro q; exact Or.inl ⟨rfl, by simp⟩
  | cons rf rest ih =>
    intro q
    by_cases h : |x - rf.reduce| < |x - q|
    · have hgo : quantizeGo x q (|x - q|) (rf :: rest) =
          quantizeGo x rf.reduce (|x - rf.reduce|) rest := by
        simp only [quantizeGo, if_pos h]
      rcases ih rf.reduce with ⟨heq, hall⟩ | ⟨i, f, hget, heq, hlt, hbefore, hle⟩
      · refine Or.inr ⟨0, rf, rfl, hgo.trans heq, h, ?_, ?_⟩
        · exact fun j g hj _ => absurd hj (Nat.not_lt_zero j)
        · intro j g hj
          match j, hj with
          | 0, hj => cases hj; exact le_refl _
          | j + 1, hj =>
            exact hall g (List.get?_mem hj)
      · refine Or.inr ⟨i + 1, f, hget, hgo.trans heq, lt_trans hlt h, ?_, ?_⟩
        · intro j g hj hget'
          match j, hget' with
          | 0, hget' => cases hget'; exact hlt
          | j + 1, hget' => exact hbefore j g (by omega) hget'
        · intro j g hget'
          match j, hget' with
          | 0, hget' => cases hget'; exact le_of_lt hlt
          | j + 1, hget' => exact hle j g hget'
    · have hgo : quantizeGo x q (|x - q|) (rf :: rest) =
          quantizeGo x q (|x - q|) rest := by
        simp only [quantizeGo, if_neg h]
      push_neg at h
      rcases ih q with ⟨heq, hall⟩ | ⟨i, f, hget, heq, hlt, hbefore, hle⟩
      · refine Or.inl ⟨hgo.trans heq, ?_⟩
        intro f hf
        rcases List.mem_cons.mp hf with rfl | hf
        · exact h
        · exact hall f hf
      · refine Or.inr ⟨i + 1, f, hget, hgo.trans heq, hlt, ?_, ?_⟩
        · intro j g hj hget'
          match j, hget' with
          | 0, hget' => cases hget'; exact lt_of_lt_of_le hlt h
          | j + 1, hget' => exact hbefore j g (by omega) hget'
        · intro j g hget'
          match j, hget' with
          | 0, hget' => cases hget'; exact le_trans (le_of_lt hlt) h
          | j + 1, hget' => exact hle j g hget'

/-- Claim C5: for every non-empty factors list and every input reduce value,
`quantizeReduce` returns the reduce value of the member whose reduce is
closest in absolute difference to the input, exact ties going to the
earliest-scanned factor (every earlier factor is strictly farther); in
particular for factors with reduces 1, 2, 4 the input 3 quantizes to 2. -/
theorem quantizeReduce_closest_first :
    (∀ (x : ℚ) (f0 : ReductionFactor) (rest : List ReductionFactor),
      ∃ r, quantizeReduce x (f0 :: rest) = some r ∧
        ∃ i f, (f0 :: rest).get? i = some f ∧ r = f.reduce ∧
          (∀ g ∈ f0 :: rest, |x - f.reduce| ≤ |x - g.reduce|) ∧
          (∀ j g, j < i → (f0 :: rest).get? j = some g →
            |x - f.reduce| < |x - g.reduce|)) ∧
    quantizeReduce 3 [⟨1, none⟩, ⟨2, none⟩, ⟨4, none⟩] = some 2 := by
  constructor
  · intro x f0 rest
    refine ⟨quantizeGo x f0.reduce (|x - f0.reduce|) rest, rfl, ?_⟩
    rcases quantizeGo_spec x rest f0.reduce with ⟨heq, hall⟩ |
        ⟨i, f, hget, heq, hlt, hbefore, hle⟩
    · refine ⟨0, f0, rfl, heq, ?_, ?_⟩
      · intro g hg
        rcases List.mem_cons.mp hg with rfl | hg
        · exact le_refl _
        · exact hall g hg
      · exact fun j g hj _ => absurd hj (Nat.not_lt_zero j)
    · refine ⟨i + 1, f, hget, heq, ?_, ?_⟩
      · intro g hg
        rcases List.mem_cons.mp hg with rfl | hg
        · exact le_of_lt hlt
        · rcases List.mem_iff_get?.mp hg with ⟨j, hj⟩
          exact hle j g hj
      · intro j g hj hget'
        match j, hget' with
        | 0, hget' => cases hget'; exact hlt
        | j + 1, hget' => exact hbefore j g (by omega) hget'
  · norm_num [quantizeReduce, quantizeGo, abs]

/-- The `'in'` loop never overwrites its accumulator when no element of the
scanned tail is strictly below `x`. -/
theorem nextReduceInLoop_const (x : ℚ) :
    ∀ (l : List ReductionFactor) (i acc : Nat),
      (∀ f ∈ l, ¬ f.reduce < x) → nextReduceInLoop x l i acc = acc := by
  intro l
  induction l with
  | nil => intro i acc _; rfl
  | cons rf rest ih =>
    intro i acc hnone
    have hrf : ¬ rf.reduce < x := hnone rf (List.mem_cons_self rf rest)
    simp only [nextReduceInLoop, if_neg hrf]
    exact ih (i + 1) acc (fun f hf => hnone f (List.mem_cons_of_mem rf hf))

/-- The `'out'` loop never overwrites its accumulator when no element of the
factor list is strictly above `x`. -/
theorem nextReduceOutLoop_const (x : ℚ) (factors : List ReductionFactor)
    (hnone : ∀ f ∈ factors, ¬ f.reduce > x) :
    ∀ (i acc : Nat), nextReduceOutLoop x factors i acc = acc := by
  intro i
  induction i with
  | zero =>
    intro acc
    simp only [nextReduceOutLoop]
    cases hget : factors.get? 0 with
    | none => rfl
    | some rf => simp [if_neg (hnone rf (List.get?_mem hget))]
  | succ i ih =>
    intro acc
    simp only [nextReduceOutLoop]
    cases hget : factors.get? (i + 1) with
    | none => exact ih acc
    | some rf => simp [if_neg (hnone rf (List.get?_mem hget))]; exact ih acc

/-- Claim C6 counterexample: with factors of reduces 1 and 2 (ascending) and
`currentReduce = 5`, the `'out'` branch finds no factor strictly above 5, yet
`nextReduce` returns the *last* factor, not the first element as claimed. -/
theorem nextReduce_out_fallback_counterexample :
    (∀ f ∈ ([⟨1, none⟩, ⟨2, none⟩] : List ReductionFactor), ¬ f.reduce > 5) ∧
    nextReduce 5 "out" [⟨1, none⟩, ⟨2, none⟩] = some ⟨2, none⟩ ∧
    ([⟨1, none⟩, ⟨2, none⟩] : List ReductionFactor).head? = some ⟨1, none⟩ ∧
    (⟨2, none⟩ : ReductionFactor) ≠ ⟨1, none⟩ := by
  refine ⟨by decide, by decide, rfl, by decide⟩

/-- Claim C6 (amended): on a non-empty factors list, whenever a direction's
branch finds no qualifying candidate, `nextReduce` returns the first element
of the factors — except the `'out'` branch, whose descending scan leaves its
accumulator at `lastIndex`, so its fallback is the *last* element. -/
theorem nextReduce_fallbacks (x : ℚ) (f0 : ReductionFactor)
    (rest : List ReductionFactor) :
    ((∀ f ∈ f0 :: rest, ¬ f.reduce < x) →
      nextReduce x "in" (f0 :: rest) = some f0) ∧
    ((∀ f ∈ f0 :: rest, ¬ f.reduce > x) →
      nextReduce x "out" (f0 :: rest) = (f0 :: rest).getLast?) ∧
    ((∀ f ∈ f0 :: rest, f.autofit ≠ some "auto" ∧ f.autofit ≠ some "height" ∧
        f.autofit ≠ some "width") →
      nextReduce x "auto" (f0 :: rest) = some f0) ∧
    (∀ d, (d = "height" ∨ d = "width") → (∀ f ∈ f0 :: rest, f.autofit ≠ some d) →
      nextReduce x d (f0 :: rest) = some f0) := by
  refine ⟨?_, ?_, ?_, ?_⟩
  · intro hnone
    have hloop := nextReduceInLoop_const x rest 1 0
      (fun f hf => hnone f (List.mem_cons_of_mem f0 hf))
    simp [nextReduce, hloop]
  · intro hnone
    have hloop := nextReduceOutLoop_const x (f0 :: rest) hnone
      ((f0 :: rest).length - 1) ((f0 :: rest).length - 1)
    simp only [List.length_cons, Nat.add_sub_cancel] at hloop
    rw [List.getLast?_eq_get?]
    simp [nextReduce, hloop]
  · intro hnone
    have hfind : (f0 :: rest).find? (fun rf => rf.autofit = some "auto") = none := by
      rw [List.find?_eq_none]
      intro f hf
      simp [(hnone f hf).1]
    have hfilter : (f0 :: rest).filter
        (fun rf => rf.autofit = some "height" || rf.autofit = some "width") = [] := by
      rw [List.filter_eq_nil]
      intro f hf
      simp [(hnone f hf).2.1, (hnone f hf).2.2]
    simp [nextReduce, hfind, hfilter, nextReduceAutoChoice]
  · intro d hd hnone
    have hfind : (f0 :: rest).find? (fun rf => rf.autofit = some d) = none := by
      rw [List.find?_eq_none]
      intro f hf
      simp [hnone f hf]
    rcases hd with rfl | rfl <;> simp [nextReduce, hfind]

/-- Characterization of the `'in'` loop: it returns either the untouched
accumulator (when no scanned element is strictly below `x`) or `i` plus the
position of the last scanned element strictly below `x`. -/
theorem nextReduceInLoop_spec (x : ℚ) :
    ∀ (l : List ReductionFactor) (i acc : Nat),
      (nextReduceInLoop x l i acc = acc ∧ ∀ f ∈ l, ¬ f.reduce < x) ∨
      (∃ k f, l.get? k = some f ∧ nextReduceInLoop x l i acc = i + k ∧
        f.reduce < x ∧
        ∀ k2 f2, k < k2 → l.get? k2 = some f2 → ¬ f2.reduce < x) := by
  intro l
  induction l with
  | nil => intro i acc; exact Or.inl ⟨rfl, by simp⟩
  | cons rf rest ih =>
    intro i acc
    by_cases hrf : rf.reduce < x
    · have hstep : nextReduceInLoop x (rf :: rest) i acc =
          nextReduceInLoop x rest (i + 1) i := by
        simp only [nextReduceInLoop, if_pos hrf]
      rcases ih (i + 1) i with ⟨heq, hnone⟩ | ⟨k, f, hget, heq, hlt, hafter⟩
      · refine Or.inr ⟨0, rf, rfl, ?_, hrf, ?_⟩
        · rw [hstep, heq]; omega
        · intro k2 f2 hk2 hget2
          match k2, hget2 with
          | k3 + 1, hget2 => exact hnone f2 (List.get?_mem hget2)
      · refine Or.inr ⟨k + 1, f, hget, ?_, hlt, ?_⟩
        · rw [hstep, heq]; omega
        · intro k2 f2 hk2 hget2
          match k2, hget2 with
          | k3 + 1, hget2 => exact hafter k3 f2 (by omega) hget2
    · have hstep : nextReduceInLoop x (rf :: rest) i acc =
          nextReduceInLoop x rest (i + 1) acc := by
        simp only [nextReduceInLoop, if_neg hrf]
      rcases ih (i + 1) acc with ⟨heq, hnone⟩ | ⟨k, f, hget, heq, hlt, hafter⟩
      · refine Or.inl ⟨hstep.trans heq, ?_⟩
        intro f hf
        rcases List.mem_cons.mp hf with rfl | hf
        · exact hrf
        · exact hnone f hf
      · refine Or.inr ⟨k + 1, f, hget, ?_, hlt, ?_⟩
        · rw [hstep, heq]; omega
        · intro k2 f2 hk2 hget2
          match k2, hget2 with
          | k3 + 1, hget2 => exact hafter k3 f2 (by omega) hget2

/-- In a list sorted ascending by reduce, the reduce value is monotone in the
position. -/
theorem sorted_reduce_le {l : List ReductionFactor}
    (hs : l.Pairwise (fun a b => a.reduce ≤ b.reduce)) :
    ∀ {i j : Nat} {f g : ReductionFactor}, i ≤ j →
      l.get? i = some f → l.get? j = some g → f.reduce ≤ g.reduce := by
  intro i j f g hij hi hj
  rcases Nat.lt_or_ge j (i + 1) with hlt | hge
  · have hij2 : i = j := by omega
    subst hij2
    rw [hi] at hj
    cases hj
    exact le_refl _
  · obtain ⟨hi', hif⟩ := List.get?_eq_some.mp hi
    obtain ⟨hj', hjg⟩ := List.get?_eq_some.mp hj
    have := List.pairwise_iff_get.mp hs ⟨i, hi'⟩ ⟨j, hj'⟩ (by simpa using hge)
    rw [hif, hjg] at this
    exact this

/-- Claim C7: on a non-empty ascending-sorted factors list, whenever some
factor is strictly below `currentReduce`, the `'in'` direction returns a
factor strictly below `currentReduce` whose reduce is greatest among all
factors strictly below it. -/
theorem nextReduce_in_greatest_below (x : ℚ) (factors : List ReductionFactor)
    (hsorted : factors.Pairwise (fun a b => a.reduce ≤ b.reduce))
    (hex : ∃ f ∈ factors, f.reduce < x) :
    ∃ g, nextReduce x "in" factors = some g ∧ g ∈ factors ∧ g.reduce < x ∧
      ∀ f ∈ factors, f.reduce < x → f.reduce ≤ g.reduce := by
  obtain ⟨fw, hfw_mem, hfw_lt⟩ := hex
  cases factors with
  | nil => exact absurd hfw_mem (List.not_mem_nil fw)
  | cons f0 rest =>
    have hev : nextReduce x "in" (f0 :: rest) =
        (f0 :: rest).get? (nextReduceInLoop x rest 1 0) := by
      simp [nextReduce]
    rcases nextReduceInLoop_spec x rest 1 0 with ⟨heq, hnone⟩ |
        ⟨k, f, hget, heq, hlt, hafter⟩
    · have hres : nextReduce x "in" (f0 :: rest) = some f0 := by
        rw [hev, heq]; rfl
      have hf0lt : f0.reduce < x := by
        rcases List.mem_cons.mp hfw_mem with rfl | hfw
        · exact hfw_lt
        · exact absurd hfw_lt (hnone fw hfw)
      refine ⟨f0, hres, List.mem_cons_self f0 rest, hf0lt, ?_⟩
      intro f hf hflt
      rcases List.mem_cons.mp hf with rfl | hf
      · exact le_refl _
      · exact absurd hflt (hnone f hf)
    · have hres : nextReduce x "in" (f0 :: rest) = some f := by
        rw [hev, heq, Nat.add_comm]
        exact hget
      refine ⟨f, hres, List.mem_cons_of_mem f0 (List.get?_mem hget), hlt, ?_⟩
      intro f2 hf2 hf2lt
      rcases List.mem_iff_get?.mp hf2 with ⟨j, hj⟩
      match j, hj with
      | 0, hj =>
        cases hj
        exact sorted_reduce_le hsorted (Nat.zero_le (k + 1)) rfl hget
      | j2 + 1, hj =>
        by_cases hjk : j2 ≤ k
        · exact sorted_reduce_le hsorted (Nat.succ_le_succ hjk) hj hget
        · exact absurd hf2lt (hafter j2 f2 (by omega) hj)

/-- Witness for C7: with ascending factors of reduces 1, 2, 4 and
currentReduce 3, zooming in lands on the greatest factor strictly below 3. -/
theorem nextReduce_in_greatest_below_witness :
    ∃ g, nextReduce 3 "in" [⟨1, none⟩, ⟨2, none⟩, ⟨4, none⟩] = some g ∧
      g ∈ [(⟨1, none⟩ : ReductionFactor), ⟨2, none⟩, ⟨4, none⟩] ∧
      g.reduce < 3 ∧
      ∀ f ∈ [(⟨1, none⟩ : ReductionFactor), ⟨2, none⟩, ⟨4, none⟩],
        f.reduce < 3 → f.reduce ≤ g.reduce :=
  nextReduce_in_greatest_below 3 [⟨1, none⟩, ⟨2, none⟩, ⟨4, none⟩]
    (by decide) ⟨⟨1, none⟩, by decide, by decide⟩

/-- Witness for C6 (amended): with factors of reduces 1 and 2 and
currentReduce 0, the `'in'` branch finds nothing strictly below and falls
back to the first factor. -/
theorem nextReduce_fallbacks_witness :
    nextReduce 0 "in" [⟨1, none⟩, ⟨2, none⟩] = some ⟨1, none⟩ :=
  (nextReduce_fallbacks 0 ⟨1, none⟩ [⟨2, none⟩]).1 (by decide)

/-! ## ModeStateMachine and NavigationController state

`BRState` gathers the fields of the BookReader instance that
`switchMode` / `canSwitchToMode` / `updateFirstIndex` read and write.
Events fired through `trigger` are collected in a returned list. -/

/-- A JS value that can be `null`, `undefined` or a number, as stored in
`this.prevReadMode`. -/
inductive JSVal where
  | null : JSVal
  | undefinedVal : JSVal
  | num : Nat → JSVal
deriving DecidableEq, Repr

structure BRState where
  /-- `this.mode` (a mode constant; arbitrary numbers are representable
  because `switchMode` does not validate nonzero numeric input). -/
  mode : Nat
  /-- `this.firstIndex` -/
  firstIndex : Nat
  /-- `this.reduce` -/
  reduce : ℚ
  /-- `this.pageScale` -/
  pageScale : ℚ
  /-- `this.prevReadMode` -/
  prevReadMode : JSVal
  /-- `this.suppressFragmentChange` -/
  suppressFragmentChange : Bool
  /-- `this.init.initComplete` -/
  initComplete : Bool
  /-- `this.book.getNumLeafs()` (external book metadata, constant here) -/
  numLeafs : Nat
  /-- `this.reductionFactors` -/
  reductionFactors : List ReductionFactor
  /-- Truthiness of `this.plugins.search?.options.initialSearchTerm` -/
  searchInitialTerm : Bool
deriving DecidableEq, Repr

/-- `BookReader.prototype.canSwitchToMode(mode)`. -/
def canSwitchToMode (numLeafs : Nat) (mode : Nat) : Bool :=
  if mode = constMode2up || mode = constModeThumb then
    -- check there are enough pages to display
    if numLeafs < 2 then false else true
  else
    true

/-- `BookReader.prototype.getPrevReadMode(mode)`: returns the mode when it is
a reading mode, `1up` when there was no previous reading mode (`null`), and
otherwise falls off the end of the function (JS `undefined`). -/
def getPrevReadMode (prevReadMode : JSVal) (mode : Nat) : JSVal :=
  if mode = constMode1up || mode = constMode2up then
    .num mode
  else if prevReadMode = .null then
    .num constMode1up
  else
    .undefinedVal

/-- The `mode` argument of `switchMode`: a number or one of the strings
`"1up" | "2up" | "thumb"`. -/
inductive ModeArg where
  | num : Nat → ModeArg
  | str : String → ModeArg
deriving DecidableEq, Repr

/-- The string-to-constant table at the top of `switchMode`; an unknown
string indexes to JS `undefined` (`none`).  A numeric argument passes
through unchanged. -/
def resolveModeArg : ModeArg → Option Nat
  | .num n => some n
  | .str s =>
    if s = "1up" then some constMode1up
    else if s = "2up" then some constMode2up
    else if s = "thumb" then some constModeThumb
    else none

/-- Shared tail of `switchMode` after the prepare call: fire
`fragmentChange` unless suppressed globally or locally, then the
`<mode>PageViewSelected` event. -/
def switchModeFinish (s : BRState) (mode : Nat) (suppressFragmentChange : Bool)
    (events : List String) : BRState × List String :=
  (s, events ++
    (if !(s.suppressFragmentChange || suppressFragmentChange) then
      ["fragmentChange"] else []) ++
    [Nat.repr mode ++ "PageViewSelected"])

/-- The unconditional part of `switchMode`, from `this.trigger(stop)` to the
prepare call of the newly selected mode.  Renderer `unprepare`/`prepare`
calls are recorded as events; reading `reductionFactors[0]` of an empty
list in the thumbnail branch is a JS `TypeError`, an `Except.error`. -/
def switchModeApply (s : BRState) (mode : Nat) (suppressFragmentChange : Bool) :
    Except String (BRState × List String) :=
  let events := ["stop"]
  let s1 := { s with prevReadMode := getPrevReadMode s.prevReadMode s.mode }
  let events := events ++ (if s1.mode ≠ mode then ["unprepare"] else [])
  let s2 := { s1 with mode := mode }
  -- reinstate scale if moving from thumbnail view
  let s3 := if s2.pageScale ≠ s2.reduce then { s2 with reduce := s2.pageScale }
    else s2
  if mode = constMode1up then
    .ok (switchModeFinish s3 mode suppressFragmentChange
      (events ++ ["prepare1up"]))
  else if mode = constModeThumb then
    match quantizeReduce s3.reduce s3.reductionFactors with
    | none => .error "TypeError: reductionFactors is empty"
    | some q =>
      .ok (switchModeFinish { s3 with reduce := q } mode
        suppressFragmentChange (events ++ ["prepareThumb"]))
  else
    .ok (switchModeFinish s3 mode suppressFragmentChange
      (events ++ ["prepare2up"]))

/-- `BookReader.prototype.switchMode(mode, { suppressFragmentChange })`.
The `init`/`pageFound` options are accepted by the JS signature but unused
in the body, so they are omitted.  `throw` becomes `Except.error` with the
JS message. -/
def switchMode (s : BRState) (modeArg : ModeArg)
    (suppressFragmentChange : Bool) :
    Except String (BRState × List String) :=
  match resolveModeArg modeArg with
  | none => .error "Invalid mode: undefined"
  | some mode =>
    if mode = 0 then .error ("Invalid mode: " ++ Nat.repr mode)
    else
      -- Skip checks before init() complete
      if s.initComplete = true then
        if mode = s.mode then .ok (s, [])
        else if canSwitchToMode s.numLeafs mode = false then .ok (s, [])
        else switchModeApply s mode suppressFragmentChange
      else switchModeApply s mode suppressFragmentChange

/-- `BookReader.prototype.updateFirstIndex(index, { suppressFragmentChange })`.
The navbar slider update is external and not modelled. -/
def updateFirstIndex (s : BRState) (index : Nat)
    (suppressFragmentChange : Bool) : BRState × List String :=
  -- If there is no change, do nothing
  if s.firstIndex = index then (s, [])
  else
    let s1 := { s with firstIndex := index }
    let ev1 := if !(s1.suppressFragmentChange || suppressFragmentChange) then
      ["fragmentChange"] else []
    -- If there is an initial search we stop suppressing global URL changes
    -- when local suppression ends
    let s2 := if s1.searchInitialTerm && !suppressFragmentChange then
      { s1 with suppressFragmentChange := false } else s1
    (s2, ev1 ++ ["pageChanged", "userAction"])

/-! ## Theorems: ModeStateMachine -/

/-- A concrete viewer state used by witnesses and counterexamples. -/
def sampleState : BRState :=
  { mode := 1
    firstIndex := 0
    reduce := 1
    pageScale := 1
    prevReadMode := .null
    suppressFragmentChange := false
    initComplete := true
    numLeafs := 5
    reductionFactors := [⟨1, none⟩]
    searchInitialTerm := false }

/-- On a non-empty reduction-factor table, the unconditional tail of
`switchMode` always succeeds for a TwoPage/Thumbnail target, sets the new
mode, and fires events. -/
theorem switchModeApply_ok (s : BRState) (target : Nat) (sl : Bool)
    (hrf : s.reductionFactors ≠ [])
    (htarget : target = constMode2up ∨ target = constModeThumb) :
    ∃ r, switchModeApply s target sl = .ok r ∧
      r.1.mode = target ∧ r.2 ≠ [] := by
  obtain ⟨rf0, rest, hcons⟩ := List.exists_cons_of_ne_nil hrf
  rcases htarget with rfl | rfl <;>
    by_cases hps : s.pageScale ≠ s.reduce <;>
    simp [switchModeApply, switchModeFinish, hps, quantizeReduce, hcons,
      constMode1up, constMode2up, constModeThumb]

/-- Claim C2: after initialization completes, `switchMode` to TwoPage or
Thumbnail is a silent no-op (state unchanged, no events) whenever the book
has fewer than 2 pages; with exactly 2 pages a switch to Thumbnail from
another mode is accepted; before initialization completes the
`canSwitchToMode` guard is bypassed and the transition applies regardless
of `numLeafs`.  (The accepted branches assume a non-empty reduction-factor
table, which the thumbnail prepare path reads.) -/
theorem switchMode_canSwitch_guard (s : BRState) (target : Nat) (sl : Bool)
    (htarget : target = constMode2up ∨ target = constModeThumb) :
    (s.initComplete = true → s.numLeafs < 2 →
      switchMode s (.num target) sl = .ok (s, [])) ∧
    (s.initComplete = true → s.numLeafs = 2 → s.mode ≠ target →
      s.reductionFactors ≠ [] →
      ∃ r, switchMode s (.num target) sl = .ok r ∧
        r.1.mode = target ∧ r.2 ≠ []) ∧
    (s.initComplete = false → s.reductionFactors ≠ [] →
      ∃ r, switchMode s (.num target) sl = .ok r ∧ r.1.mode = target) := by
  have ht0 : ¬ target = 0 := by rcases htarget with rfl | rfl <;> decide
  refine ⟨?_, ?_, ?_⟩
  · intro hic hn
    have hcs : canSwitchToMode s.numLeafs target = false := by
      rcases htarget with rfl | rfl <;>
        simp [canSwitchToMode, constMode2up, constModeThumb, hn]
    simp only [switchMode, resolveModeArg]
    rw [if_neg ht0, if_pos hic]
    by_cases hm : target = s.mode
    · rw [if_pos hm]
    · rw [if_neg hm, if_pos hcs]
  · intro hic hn hm hrf
    have hcs : ¬ canSwitchToMode s.numLeafs target = false := by
      rcases htarget with rfl | rfl <;>
        simp [canSwitchToMode, constMode2up, constModeThumb, hn]
    have happly := switchModeApply_ok s target sl hrf htarget
    obtain ⟨r, hr, hrmode, hrev⟩ := happly
    refine ⟨r, ?_, hrmode, hrev⟩
    simp only [switchMode, resolveModeArg]
    rw [if_neg ht0, if_pos hic, if_neg (fun h => hm h.symm), if_neg hcs]
    exact hr
  · intro hic hrf
    have happly := switchModeApply_ok s target sl hrf htarget
    obtain ⟨r, hr, hrmode, _⟩ := happly
    refine ⟨r, ?_, hrmode⟩
    simp only [switchMode, resolveModeArg]
    rw [if_neg ht0, if_neg (by simp [hic])]
    exact hr

/-- Witness for C2: with a one-page book after init, switching to Thumbnail
is a silent no-op. -/
theorem switchMode_canSwitch_guard_witness :
    switchMode { sampleState with numLeafs := 1 }
      (.num constModeThumb) false =
      .ok ({ sampleState with numLeafs := 1 }, []) :=
  (switchMode_canSwitch_guard { sampleState with numLeafs := 1 }
    constModeThumb false (Or.inr rfl)).1 rfl (by decide)

/-- Claim C3 counterexample: `switchMode(5)` — a numeric argument that is
none of the three mode constants — does not throw: `5` is truthy, passes the
`!mode` check and both guards, and the switch proceeds down the 2-up prepare
path, mutating the state. -/
theorem switchMode_invalid_num_counterexample :
    switchMode sampleState (.num 5) false =
      .ok ({ sampleState with mode := 5, prevReadMode := .num 1 },
        ["stop", "unprepare", "prepare2up", "fragmentChange",
          "5PageViewSelected"]) ∧
    ({ sampleState with mode := 5, prevReadMode := .num 1 } : BRState) ≠
      sampleState := by
  constructor
  · rfl
  · decide

/-- Claim C3 (amended): `switchMode` throws synchronously, with no state
mutated, exactly for the arguments that resolve to a falsy mode: every
string other than "1up"/"2up"/"thumb", and the number 0.  (Nonzero numbers
outside the enum are not rejected; see the counterexample.) -/
theorem switchMode_invalid_token_throws (s : BRState) (sl : Bool)
    (arg : ModeArg)
    (h : (∃ t, arg = .str t ∧ t ≠ "1up" ∧ t ≠ "2up" ∧ t ≠ "thumb") ∨
      arg = .num 0) :
    ∃ msg, switchMode s arg sl = .error msg := by
  rcases h with ⟨t, rfl, h1, h2, h3⟩ | rfl
  · refine ⟨"Invalid mode: undefined", ?_⟩
    simp [switchMode, resolveModeArg, h1, h2, h3]
  · exact ⟨"Invalid mode: 0", rfl⟩

/-- Witness for C3 (amended): the unknown string "3up" makes `switchMode`
throw. -/
theorem switchMode_invalid_token_throws_witness :
    ∃ msg, switchMode sampleState (.str "3up") false = .error msg :=
  switchMode_invalid_token_throws sampleState false (.str "3up")
    (Or.inl ⟨"3up", rfl, by decide, by decide, by decide⟩)

/-! ## Theorems: updateFirstIndex -/

/-- Claim C8: starting from a state not already at `x` (and with fragment
changes not suppressed), calling `updateFirstIndex x` twice leaves
`firstIndex = x`, makes the second call a complete no-op (same state, no
events), and fires `fragmentChange` and `pageChanged` exactly once in
total. -/
theorem updateFirstIndex_second_noop (s : BRState) (x : Nat)
    (hx : s.firstIndex ≠ x) (hsup : s.suppressFragmentChange = false) :
    (updateFirstIndex s x false).1.firstIndex = x ∧
    updateFirstIndex (updateFirstIndex s x false).1 x false =
      ((updateFirstIndex s x false).1, []) ∧
    ((updateFirstIndex s x false).2 ++
      (updateFirstIndex (updateFirstIndex s x false).1 x false).2).count
        "fragmentChange" = 1 ∧
    ((updateFirstIndex s x false).2 ++
      (updateFirstIndex (updateFirstIndex s x false).1 x false).2).count
        "pageChanged" = 1 := by
  cases hsi : s.searchInitialTerm <;>
    simp [updateFirstIndex, hx, hsup, hsi, List.count_cons]

/-- Witness for C8 at a concrete state and index. -/
theorem updateFirstIndex_second_noop_witness :
    (updateFirstIndex sampleState 7 false).1.firstIndex = 7 ∧
    updateFirstIndex (updateFirstIndex sampleState 7 false).1 7 false =
      ((updateFirstIndex sampleState 7 false).1, []) ∧
    ((updateFirstIndex sampleState 7 false).2 ++
      (updateFirstIndex (updateFirstIndex sampleState 7 false).1 7
        false).2).count "fragmentChange" = 1 ∧
    ((updateFirstIndex sampleState 7 false).2 ++
      (updateFirstIndex (updateFirstIndex sampleState 7 false).1 7
        false).2).count "pageChanged" = 1 :=
  updateFirstIndex_second_noop sampleState 7 (by decide) rfl

/-! ## String layer

JS strings are modelled as `List Char` (`Str`).  The JS builtins used by
the fragment codec (`split`, `join`, `parseInt` on an all-digit match,
number-to-string, `encodeURIComponent`, `decodeURIComponent`) are modelled
below. -/

abbrev Str := List Char

/-- Literal helper: the character list of a Lean string literal. -/
def str (s : String) : Str := s.data

/-- Numeric value of a decimal digit character. -/
def digitVal (c : Char) : Nat := c.toNat - '0'.toNat

/-- Accumulating decimal parse, consuming digits left to right. -/
def digitsToNatAux (acc : Nat) : Str → Nat
  | [] => acc
  | c :: rest => digitsToNatAux (acc * 10 + digitVal c) rest

/-- Model of `parseInt(/^\d+$/.exec(fragment))`: `some` exactly when the
string is non-empty and all decimal digits (otherwise the regex fails and
`parseInt(null)` is `NaN`). -/
def parseAllDigits (s : Str) : Option Nat :=
  if s ≠ [] ∧ (∀ c ∈ s, c.isDigit = true) then some (digitsToNatAux 0 s)
  else none

/-- Model of JS number-to-string (base 10) for a nonnegative integer:
pushes the digits of `n` in front of `acc`.  `fuel` bounds the recursion
structurally (any `fuel > n` is enough, since `n/10 < n`). -/
def natToStrAux : Nat → Nat → Str → Str
  | 0, _, acc => acc
  | fuel + 1, n, acc =>
    let acc2 := Nat.digitChar (n % 10) :: acc
    if n / 10 = 0 then acc2
    else natToStrAux fuel (n / 10) acc2

def natToStr (n : Nat) : Str := natToStrAux (n + 1) n []

/-- Model of `fragment.split('/')`. -/
def splitOnSlash : Str → List Str
  | [] => [[]]
  | c :: rest =>
    if c = '/' then [] :: splitOnSlash rest
    else
      match splitOnSlash rest with
      | [] => [[c]]
      | p :: ps => (c :: p) :: ps

/-- Model of `fragments.join('/')`. -/
def joinSlash : List Str → Str
  | [] => []
  | [x] => x
  | x :: xs => x ++ '/' :: joinSlash xs

/-- Value of a hexadecimal digit character. -/
def hexVal (c : Char) : Option Nat :=
  if '0' ≤ c ∧ c ≤ '9' then some (c.toNat - '0'.toNat)
  else if 'a' ≤ c ∧ c ≤ 'f' then some (c.toNat - 'a'.toNat + 10)
  else if 'A' ≤ c ∧ c ≤ 'F' then some (c.toNat - 'A'.toNat + 10)
  else none

/-- A well-formed `%XX` escape at the head of `rest`: the decoded character
and the remainder. -/
def decodeEscape (rest : Str) : Option (Char × Str) :=
  match rest with
  | a :: b :: rest2 =>
    match hexVal a, hexVal b with
    | some ha, some hb => some (Char.ofNat (16 * ha + hb), rest2)
    | _, _ => none
  | _ => none

theorem decodeEscape_length {rest rest2 : Str} {d : Char}
    (h : decodeEscape rest = some (d, rest2)) :
    rest2.length < rest.length := by
  match rest, h with
  | a :: b :: rest3, h =>
    rw [decodeEscape] at h
    cases ha : hexVal a <;> rw [ha] at h
    · simp at h
    · cases hb : hexVal b <;> rw [hb] at h
      · simp at h
      · simp only [Option.some.injEq, Prod.mk.injEq] at h
        obtain ⟨-, hr⟩ := h
        subst hr
        simp only [List.length_cons]
        omega

/-- Model of the JS builtin `decodeURIComponent`, restricted to single-byte
(ASCII) percent escapes; a malformed escape is copied through (the real
builtin throws `URIError` there, a case the fragment grammar of this
program never produces). -/
def decodeURIComponentJS : Str → Str
  | [] => []
  | c :: rest =>
    if c = '%' then
      match hesc : decodeEscape rest with
      | some (d, rest2) => d :: decodeURIComponentJS rest2
      | none => c :: decodeURIComponentJS rest
    else c :: decodeURIComponentJS rest
termination_by s => s.length
decreasing_by
  · exact Nat.lt_trans (decodeEscape_length hesc) (by simp)
  · simp
  · simp

/-- The characters `encodeURIComponent` leaves unescaped. -/
def uriUnreserved (c : Char) : Bool :=
  c.isAlphanum || c = '-' || c = '_' || c = '.' || c = '!' || c = '~' ||
    c = '*' || c = '\'' || c = '(' || c = ')'

/-- Uppercase hexadecimal digit character. -/
def hexCharUpper (d : Nat) : Char :=
  if d < 10 then Nat.digitChar d
  else if d = 10 then 'A'
  else if d = 11 then 'B'
  else if d = 12 then 'C'
  else if d = 13 then 'D'
  else if d = 14 then 'E'
  else 'F'

/-- Model of the JS builtin `encodeURIComponent` for ASCII input:
unreserved characters pass through, any other becomes a `%XX` escape. -/
def encodeURIComponentJS : Str → Str
  | [] => []
  | c :: rest =>
    if uriUnreserved c then c :: encodeURIComponentJS rest
    else '%' :: hexCharUpper (c.toNat / 16 % 16) :: hexCharUpper (c.toNat % 16)
      :: encodeURIComponentJS rest

/-- Modelled from the spec: `utils.encodeURIComponentPlus` lives in
`BookReader/utils.js`, which is not under src; per spec section 4.4 the
search term is "plus-encoded": spaces become `+`, the rest is
`encodeURIComponent`. -/
def encodeURIComponentPlusJS : Str → Str
  | [] => []
  | c :: rest =>
    if c = ' ' then '+' :: encodeURIComponentPlusJS rest
    else if uriUnreserved c then c :: encodeURIComponentPlusJS rest
    else '%' :: hexCharUpper (c.toNat / 16 % 16) :: hexCharUpper (c.toNat % 16)
      :: encodeURIComponentPlusJS rest

/-- Modelled from the spec: `utils.decodeURIComponentPlus` (not under src);
the inverse plus-aware decoding: `+` becomes a space, then percent escapes
are decoded. -/
def decodeURIComponentPlusJS (s : Str) : Str :=
  decodeURIComponentJS (s.map (fun c => if c = '+' then ' ' else c))

/-! ## FragmentCodec

Embeds `paramsFromFragment`, `fragmentFromParams` and `extendParams`. -/

/-- The params record produced/consumed by the fragment codec: each JS
object key that may be absent is an `Option`. -/
structure FragParams where
  index : Option Nat
  page : Option Str
  mode : Option Nat
  search : Option Str
  theme : Option Str
deriving DecidableEq, Repr

def emptyFragParams : FragParams :=
  ⟨none, none, none, none, none⟩

/-- The `for (i = 0; i < urlArray.length; i += 2)` loop building `urlHash`:
key/value pairs, the value being JS `undefined` (`none`) when the array has
odd length. -/
def toUrlHash : List Str → List (Str × Option Str)
  | [] => []
  | [k] => [(k, none)]
  | k :: v :: rest => (k, some v) :: toUrlHash rest

/-- Lookup in `urlHash` with JS object semantics: a later assignment to the
same key overwrites an earlier one; the outer `Option` distinguishes a
missing key from a key stored with value `undefined`. -/
def urlHashGetRaw (h : List (Str × Option Str)) (k : Str) :
    Option (Option Str) :=
  match h with
  | [] => none
  | (k2, v) :: rest =>
    match urlHashGetRaw rest k with
    | some r => some r
    | none => if k2 = k then some v else none

/-- `urlHash[key]` as tested by the decoder: a stored `undefined` behaves
like an absent key (`'undefined' != typeof(...)` and `!= undefined` both
fail). -/
def urlHashGet (h : List (Str × Option Str)) (k : Str) : Option Str :=
  match urlHashGetRaw h k with
  | some (some v) => some v
  | _ => none

/-- `BookReader.prototype.paramsFromFragment(fragment)`. -/
def paramsFromFragment (fragment : Str) : FragParams :=
  -- For backwards compatibility we allow an initial # character
  let fragment := if fragment.head? = some '#' then fragment.tail else fragment
  -- Simple #nn syntax
  match parseAllDigits fragment with
  | some oldStyleLeafNum => { emptyFragParams with index := some oldStyleLeafNum }
  | none =>
    let urlArray := splitOnSlash fragment
    let urlHash := toUrlHash urlArray
    let mode :=
      if urlHashGet urlHash (str "mode") = some (str "1up") then
        some constMode1up
      else if urlHashGet urlHash (str "mode") = some (str "2up") then
        some constMode2up
      else if urlHashGet urlHash (str "mode") = some (str "thumb") then
        some constModeThumb
      else none
    let page := (urlHashGet urlHash (str "page")).map decodeURIComponentJS
    let search := (urlHashGet urlHash (str "search")).map decodeURIComponentPlusJS
    let theme := urlHashGet urlHash (str "theme")
    { index := none, page := page, mode := mode, search := search,
      theme := theme }

/-- `BookReader.prototype.fragmentFromParams(params, urlMode)`.  The JS
`throw` for an unknown mode becomes `Except.error` carrying the message. -/
def fragmentFromParams (params : FragParams) (urlMode : Str) :
    Except Str Str :=
  let fragments : List Str :=
    match params.page with
    | some pg => [str "page", encodeURIComponentJS pg]
    | none =>
      match params.index with
      -- Don't have page numbering but we do have the index
      | some i => [str "page", 'n' :: natToStr i]
      | none => []
  match
    (match params.mode with
     | none => Except.ok ([] : List Str)
     | some m =>
       if m = constMode1up then .ok [str "mode", str "1up"]
       else if m = constMode2up then .ok [str "mode", str "2up"]
       else if m = constModeThumb then .ok [str "mode", str "thumb"]
       else .error (str "fragmentFromParams called with unknown mode " ++
         natToStr m)) with
  | .error e => .error e
  | .ok modeFragments =>
    let fragments := fragments ++ modeFragments
    let fragments := fragments ++
      (match params.search with
       | some term =>
         if term ≠ [] ∧ urlMode = str "hash" then
           [str "search", encodeURIComponentPlusJS term]
         else []
       | none => [])
    .ok (joinSlash fragments)

/-- Modelled from the spec: `BookModel.prototype.parsePageString` lives in
`BookReader/BookModel.js`, which is not under src.  Per spec sections 4.4
and 8, a page string of the synthetic form `n<index>` resolves to that
index (other page-string forms are out of scope of the claims; they parse
to `NaN`, `none`, here). -/
def parsePageStringModel : Str → Option Nat
  | 'n' :: rest => parseAllDigits rest
  | _ => none

/-- JS `$.extend` per key: a key present in the new object overwrites the
old value; an absent (`undefined`) one is not copied. -/
def jsMerge {α : Type} (o n : Option α) : Option α :=
  match n with
  | some v => some v
  | none => o

/-- `BookReader.prototype.extendParams(params, newParams)`, with the book's
page-string parser passed in: if the new params carry a `page`, parse it
into `index` (only on success) and delete `page`, then merge key-wise. -/
def extendParams (pps : Str → Option Nat) (params newParams : FragParams) :
    FragParams :=
  let m :=
    match newParams.page with
    | some pg =>
      { newParams with
        index := match pps pg with
          | some pageIndex => some pageIndex
          | none => newParams.index
        page := none }
    | none => newParams
  { index := jsMerge params.index m.index
    page := jsMerge params.page m.page
    mode := jsMerge params.mode m.mode
    search := jsMerge params.search m.search
    theme := jsMerge params.theme m.theme }

/-! ## Theorems: string layer -/

theorem digitChar_isDigit (d : Nat) (h : d < 10) :
    (Nat.digitChar d).isDigit = true := by
  interval_cases d <;> decide

theorem digitVal_digitChar (d : Nat) (h : d < 10) :
    digitVal (Nat.digitChar d) = d := by
  interval_cases d <;> decide

theorem isDigit_ne_slash (c : Char) (h : c.isDigit = true) : c ≠ '/' :=
  fun hc => absurd h (by rw [hc]; decide)

theorem isDigit_ne_percent (c : Char) (h : c.isDigit = true) : c ≠ '%' :=
  fun hc => absurd h (by rw [hc]; decide)

theorem isDigit_not (c : Char) (h : c.isDigit = true) : c.isDigit ≠ false := by
  rw [h]; decide

theorem natToStrAux_isDigit :
    ∀ (fuel n : Nat) (acc : Str), (∀ c ∈ acc, c.isDigit = true) →
      ∀ c ∈ natToStrAux fuel n acc, c.isDigit = true := by
  intro fuel
  induction fuel with
  | zero => intro n acc hacc c hc; exact hacc c hc
  | succ fuel ih =>
    intro n acc hacc c hc
    have hd : (Nat.digitChar (n % 10)).isDigit = true :=
      digitChar_isDigit (n % 10) (Nat.mod_lt n (by omega))
    have hacc2 : ∀ c ∈ Nat.digitChar (n % 10) :: acc, c.isDigit = true := by
      intro d hdm
      rcases List.mem_cons.mp hdm with rfl | hdm
      · exact hd
      · exact hacc d hdm
    rw [natToStrAux] at hc
    by_cases h10 : n / 10 = 0
    · rw [if_pos h10] at hc
      exact hacc2 c hc
    · rw [if_neg h10] at hc
      exact ih (n / 10) _ hacc2 c hc

theorem natToStr_isDigit (n : Nat) : ∀ c ∈ natToStr n, c.isDigit = true :=
  natToStrAux_isDigit (n + 1) n [] (by simp)

theorem natToStrAux_ne_nil :
    ∀ (fuel n : Nat) (acc : Str), n < fuel → natToStrAux fuel n acc ≠ [] := by
  intro fuel
  induction fuel with
  | zero => intro n acc h; omega
  | succ fuel ih =>
    intro n acc h
    rw [natToStrAux]
    by_cases h10 : n / 10 = 0
    · rw [if_pos h10]
      exact List.cons_ne_nil _ _
    · rw [if_neg h10]
      exact ih (n / 10) _ (by omega)

theorem digitsToNatAux_natToStrAux :
    ∀ (fuel n : Nat) (acc : Str), n < fuel →
      digitsToNatAux 0 (natToStrAux fuel n acc) = digitsToNatAux n acc := by
  intro fuel
  induction fuel with
  | zero => intro n acc h; omega
  | succ fuel ih =>
    intro n acc h
    rw [natToStrAux]
    by_cases h10 : n / 10 = 0
    · rw [if_pos h10]
      show digitsToNatAux (0 * 10 + digitVal (Nat.digitChar (n % 10))) acc =
        digitsToNatAux n acc
      rw [digitVal_digitChar (n % 10) (by omega)]
      congr 1
      omega
    · rw [if_neg h10]
      rw [ih (n / 10) _ (by omega)]
      show digitsToNatAux (n / 10 * 10 + digitVal (Nat.digitChar (n % 10))) acc =
        digitsToNatAux n acc
      rw [digitVal_digitChar (n % 10) (by omega)]
      congr 1
      omega

theorem parseAllDigits_natToStr (n : Nat) :
    parseAllDigits (natToStr n) = some n := by
  rw [parseAllDigits,
    if_pos ⟨natToStrAux_ne_nil (n + 1) n [] (by omega), natToStr_isDigit n⟩]
  rw [natToStr, digitsToNatAux_natToStrAux (n + 1) n [] (by omega)]
  rfl

theorem splitOnSlash_noslash (s : Str) (h : ∀ c ∈ s, c ≠ '/') :
    splitOnSlash s = [s] := by
  induction s with
  | nil => rfl
  | cons c rest ih =>
    have hc : ¬ c = '/' := h c (List.mem_cons_self c rest)
    rw [splitOnSlash, if_neg hc, ih (fun d hd => h d (List.mem_cons_of_mem c hd))]

theorem splitOnSlash_append (a b : Str) (ha : ∀ c ∈ a, c ≠ '/') :
    splitOnSlash (a ++ '/' :: b) = a :: splitOnSlash b := by
  induction a with
  | nil => rw [List.nil_append, splitOnSlash, if_pos rfl]
  | cons c rest ih =>
    have hc : ¬ c = '/' := ha c (List.mem_cons_self c rest)
    rw [List.cons_append, splitOnSlash, if_neg hc,
      ih (fun d hd => ha d (List.mem_cons_of_mem c hd))]

theorem decodeURIComponentJS_id (s : Str) (h : ∀ c ∈ s, c ≠ '%') :
    decodeURIComponentJS s = s := by
  induction s with
  | nil => rw [decodeURIComponentJS]
  | cons c rest ih =>
    have hc : ¬ c = '%' := h c (List.mem_cons_self c rest)
    rw [decodeURIComponentJS, if_neg hc,
      ih (fun d hd => h d (List.mem_cons_of_mem c hd))]

/-! ## Theorems: FragmentCodec -/

/-- Decoding a two-pair fragment `page/<pg>/mode/<ms>` with a recognized
mode string: yields exactly the `page` (URL-decoded) and `mode` keys. -/
theorem paramsFromFragment_page_mode (pg : Str)
    (hslash : ∀ c ∈ pg, c ≠ '/') (hpct : ∀ c ∈ pg, c ≠ '%')
    (m : Nat) (ms : Str)
    (hm : (ms = str "1up" ∧ m = constMode1up) ∨
      (ms = str "2up" ∧ m = constMode2up) ∨
      (ms = str "thumb" ∧ m = constModeThumb)) :
    paramsFromFragment
        (str "page" ++ '/' :: (pg ++ '/' :: (str "mode" ++ '/' :: ms))) =
      { index := none, page := some pg, mode := some m, search := none,
        theme := none } := by
  have hsplit : splitOnSlash
      (str "page" ++ '/' :: (pg ++ '/' :: (str "mode" ++ '/' :: ms))) =
      [str "page", pg, str "mode", ms] := by
    rw [splitOnSlash_append _ _ (by decide), splitOnSlash_append _ _ hslash,
      splitOnSlash_append _ _ (by decide)]
    rcases hm with ⟨rfl, -⟩ | ⟨rfl, -⟩ | ⟨rfl, -⟩ <;>
      rw [splitOnSlash_noslash _ (by decide)]
  have hparse : parseAllDigits
      (str "page" ++ '/' :: (pg ++ '/' :: (str "mode" ++ '/' :: ms))) = none := by
    rw [parseAllDigits, if_neg]
    rintro ⟨-, hall⟩
    exact absurd (hall 'p' (by simp [str])) (by decide)
  have hhead : (str "page" ++ '/' :: (pg ++ '/' :: (str "mode" ++ '/' :: ms))).head?
      = some 'p' := rfl
  simp only [paramsFromFragment, hhead]
  rw [if_neg (by decide), hparse, hsplit]
  rcases hm with ⟨rfl, rfl⟩ | ⟨rfl, rfl⟩ | ⟨rfl, rfl⟩ <;>
    simp [toUrlHash, urlHashGet, urlHashGetRaw, str,
      decodeURIComponentJS_id pg hpct, constMode1up, constMode2up,
      constModeThumb, emptyFragParams]

/-- The synthetic page value `n<index>` contains no slash and no percent. -/
theorem nIndex_clean (i : Nat) :
    (∀ c ∈ 'n' :: natToStr i, c ≠ '/') ∧ (∀ c ∈ 'n' :: natToStr i, c ≠ '%') := by
  constructor <;> intro c hc <;> rcases List.mem_cons.mp hc with rfl | hc
  · decide
  · exact isDigit_ne_slash c (natToStr_isDigit i c hc)
  · decide
  · exact isDigit_ne_percent c (natToStr_isDigit i c hc)

/-- Claim C4: for every params record carrying only `index` and `mode`,
encoding produces `page/n<index>/mode/<modestring>`, decoding that fragment
yields the record with `page = "n<index>"` and the same mode, and
normalizing through the book's page-string parser restores the original
record.  (The parser is modelled from the spec: `"n5"` resolves to index
5.) -/
theorem fragment_roundtrip_index_mode (i m : Nat)
    (hm : m = constMode1up ∨ m = constMode2up ∨ m = constModeThumb) :
    ∃ frag,
      fragmentFromParams { emptyFragParams with index := some i, mode := some m }
          (str "hash") = .ok frag ∧
      paramsFromFragment frag =
        { emptyFragParams with page := some ('n' :: natToStr i), mode := some m } ∧
      extendParams parsePageStringModel emptyFragParams (paramsFromFragment frag) =
        { emptyFragParams with index := some i, mode := some m } := by
  obtain ⟨hslash, hpct⟩ := nIndex_clean i
  rcases hm with rfl | rfl | rfl
  · refine ⟨str "page" ++ '/' :: (('n' :: natToStr i) ++ '/' ::
      (str "mode" ++ '/' :: str "1up")), rfl, ?_, ?_⟩
    · exact paramsFromFragment_page_mode ('n' :: natToStr i) hslash hpct
        constMode1up (str "1up") (Or.inl ⟨rfl, rfl⟩)
    · rw [paramsFromFragment_page_mode ('n' :: natToStr i) hslash hpct
        constMode1up (str "1up") (Or.inl ⟨rfl, rfl⟩)]
      simp [extendParams, parsePageStringModel, parseAllDigits_natToStr,
        jsMerge, emptyFragParams]
  · refine ⟨str "page" ++ '/' :: (('n' :: natToStr i) ++ '/' ::
      (str "mode" ++ '/' :: str "2up")), rfl, ?_, ?_⟩
    · exact paramsFromFragment_page_mode ('n' :: natToStr i) hslash hpct
        constMode2up (str "2up") (Or.inr (Or.inl ⟨rfl, rfl⟩))
    · rw [paramsFromFragment_page_mode ('n' :: natToStr i) hslash hpct
        constMode2up (str "2up") (Or.inr (Or.inl ⟨rfl, rfl⟩))]
      simp [extendParams, parsePageStringModel, parseAllDigits_natToStr,
        jsMerge, emptyFragParams]
  · refine ⟨str "page" ++ '/' :: (('n' :: natToStr i) ++ '/' ::
      (str "mode" ++ '/' :: str "thumb")), rfl, ?_, ?_⟩
    · exact paramsFromFragment_page_mode ('n' :: natToStr i) hslash hpct
        constModeThumb (str "thumb") (Or.inr (Or.inr ⟨rfl, rfl⟩))
    · rw [paramsFromFragment_page_mode ('n' :: natToStr i) hslash hpct
        constModeThumb (str "thumb") (Or.inr (Or.inr ⟨rfl, rfl⟩))]
      simp [extendParams, parsePageStringModel, parseAllDigits_natToStr,
        jsMerge, emptyFragParams]

/-- Witness for C4 at index 5 and TwoPage: the encoded fragment is the
literal string "page/n5/mode/2up". -/
theorem fragment_roundtrip_index_mode_witness :
    fragmentFromParams { emptyFragParams with index := some 5, mode := some 2 }
        (str "hash") = .ok (str "page/n5/mode/2up") ∧
    ∃ frag,
      fragmentFromParams { emptyFragParams with index := some 5, mode := some 2 }
          (str "hash") = .ok frag ∧
      paramsFromFragment frag =
        { emptyFragParams with page := some ('n' :: natToStr 5), mode := some 2 } ∧
      extendParams parsePageStringModel emptyFragParams (paramsFromFragment frag) =
        { emptyFragParams with index := some 5, mode := some 2 } :=
  ⟨rfl, fragment_roundtrip_index_mode 5 2 (Or.inr (Or.inl rfl))⟩

/-- Claim C10: decode/encode asymmetry for mode values.  Decoding is total:
a fragment whose `mode` value is unrecognized (e.g. `mode/3up`) yields a
params record with no `mode` key and no error, whereas encoding a params
record with an unknown mode throws. -/
theorem mode_decode_encode_asymmetry :
    (∀ frag : Str, frag.head? ≠ some '#' →
      (∀ v, urlHashGet (toUrlHash (splitOnSlash frag)) (str "mode") = some v →
        v ≠ str "1up" ∧ v ≠ str "2up" ∧ v ≠ str "thumb") →
      (paramsFromFragment frag).mode = none) ∧
    (∀ (p : FragParams) (urlMode : Str) (m : Nat), p.mode = some m →
      m ≠ constMode1up → m ≠ constMode2up → m ≠ constModeThumb →
      ∃ e, fragmentFromParams p urlMode = .error e) := by
  constructor
  · intro frag hhash hmode
    simp only [paramsFromFragment]
    rw [if_neg hhash]
    cases hparse : parseAllDigits frag with
    | some n => simp [emptyFragParams]
    | none =>
      cases hlook : urlHashGet (toUrlHash (splitOnSlash frag)) (str "mode") with
      | none => simp [hlook]
      | some v =>
        obtain ⟨h1, h2, h3⟩ := hmode v hlook
        simp [hlook, h1, h2, h3]
  · intro p urlMode m hp hm1 hm2 hm3
    refine ⟨str "fragmentFromParams called with unknown mode " ++ natToStr m, ?_⟩
    simp [fragmentFromParams, hp, hm1, hm2, hm3]

/-- Witness for C10: decoding `mode/3up` silently drops the mode key, while
encoding `mode = 5` throws. -/
theorem mode_decode_encode_asymmetry_witness :
    (paramsFromFragment (str "mode/3up")).mode = none ∧
    ∃ e, fragmentFromParams { emptyFragParams with mode := some 5 }
      (str "hash") = .error e := by
  constructor
  · refine mode_decode_encode_asymmetry.1 (str "mode/3up") (by decide) ?_
    intro v hv
    have hv2 : str "3up" = v := Option.some.inj hv
    subst hv2
    exact ⟨by decide, by decide, by decide⟩
  · exact mode_decode_encode_asymmetry.2
      { emptyFragParams with mode := some 5 } (str "hash") 5 rfl
      (by decide) (by decide) (by decide)

/-! ## ParamsResolver

Embeds `BookReader.prototype.initParams`.  External collaborators (book
metadata, plugins, URL readers) enter as fields of `InitEnv`; the resume /
URL / search plugin steps are written as separate staged definitions in
source order. -/

/-- The environment `initParams` reads: book metadata, options, plugin
state and the live URL. -/
structure InitEnv where
  /-- `this.titleLeaf` when defined -/
  titleLeaf : Option Nat
  /-- `this.book.getNumLeafs()` -/
  numLeafs : Nat
  /-- `this.book.leafNumToIndex` -/
  leafNumToIndex : Nat → Nat
  /-- `this.book.parsePageString` (NaN becomes `none`) -/
  parsePageString : Str → Option Nat
  /-- `this.defaults`; `[]` for absent or empty (both falsy) -/
  defaults : Str
  /-- `this.plugins.resume?.options.enabled` -/
  resumeEnabled : Bool
  /-- `this.plugins.resume.getResumeValue()`; `none` for null -/
  resumeValue : Option Nat
  /-- `this.options.enableUrlPlugin` -/
  urlPluginEnabled : Bool
  /-- `this.urlReadFragment()` -/
  urlFragment : Str
  /-- `this.urlReadHashFragment()`; `[]` falsy -/
  urlHashFragment : Str
  /-- `this.options.urlMode === 'history'` -/
  urlModeHistory : Bool
  /-- `this.plugins.search?.options.enabled` -/
  searchEnabled : Bool
  /-- truthiness of `sp.initialSearchTerm` -/
  searchInitialTermSet : Bool
  /-- `new URLSearchParams(this.readQueryString()).get('q')`; null is `none` -/
  queryStringQ : Option Str

/-- The record `initParams` builds: control flags plus the merged fragment
params. -/
structure StartupParams where
  init : Bool
  pageFound : Bool
  fragmentChange : Bool
  fp : FragParams

/-- Mutations the search-plugin step writes into `this.plugins.search`
(`none` = left untouched). -/
structure SearchPluginOut where
  goToFirstResult : Option Bool
  initialSearchTerm : Option Str
  searchTerm : Option Str

/-- `Object.keys(params).length` is nonzero. -/
def hasAnyKey (p : FragParams) : Bool :=
  p.index.isSome || p.page.isSome || p.mode.isSome || p.search.isSome ||
    p.theme.isSome

/-- `initParams`, start: flags, and the title-leaf/0 default index. -/
def initParamsBase (env : InitEnv) : StartupParams :=
  let index :=
    match env.titleLeaf with
    | some tl => if env.numLeafs > 2 then env.leafNumToIndex tl else 0
    | none => 0
  { init := true, pageFound := false, fragmentChange := false,
    fp := { emptyFragParams with index := some index } }

/-- `initParams`, static-defaults step: parse `this.defaults` when truthy,
record `pageFound`, merge. -/
def initParamsAfterDefaults (env : InitEnv) : StartupParams :=
  let p := initParamsBase env
  if env.defaults ≠ [] then
    let defaultParams := paramsFromFragment env.defaults
    { p with
      pageFound := if defaultParams.page.isSome then true else p.pageFound,
      fp := extendParams env.parsePageString p.fp defaultParams }
  else p

/-- `initParams`, resume-plugin step: adopt a persisted index, flagging
`fragmentChange` when it differs from the current default. -/
def initParamsAfterResume (env : InitEnv) : StartupParams :=
  let p := initParamsAfterDefaults env
  if env.resumeEnabled = true then
    match env.resumeValue with
    | some val =>
      { p with
        fragmentChange := if p.fp.index ≠ some val then true
          else p.fragmentChange,
        fp := { p.fp with index := some val } }
    | none => p
  else p

/-- The URL params the URL-plugin step ends up using: the primary fragment,
falling back to the hash fragment in `history` URL mode when the primary
parse found nothing and a hash fragment exists. -/
def urlParamsResolved (env : InitEnv) : FragParams :=
  let urlParams := paramsFromFragment env.urlFragment
  let hasHashURL := ¬ hasAnyKey urlParams = true ∧ env.urlHashFragment ≠ []
  if hasHashURL ∧ env.urlModeHistory = true then
    paramsFromFragment env.urlHashFragment
  else urlParams

/-- `initParams`, URL-plugin step: merge URL params and flag
`fragmentChange` whenever any key was found. -/
def initParamsAfterURL (env : InitEnv) : StartupParams :=
  let p := initParamsAfterResume env
  if env.urlPluginEnabled = true then
    let urlParams := urlParamsResolved env
    if hasAnyKey urlParams = true then
      { p with
        pageFound := if urlParams.page.isSome then true else p.pageFound,
        fp := extendParams env.parsePageString p.fp urlParams,
        fragmentChange := true }
    else p
  else p

/-- `initParams`, search-plugin step: does not touch `params`; writes into
the plugin options. -/
def initParamsSearchOut (env : InitEnv) : SearchPluginOut :=
  let p := initParamsAfterURL env
  if env.searchEnabled = true then
    let goToFirstResult := some (!p.pageFound)
    if env.searchInitialTermSet = false then
      match p.fp.search with
      | some term =>
        if term ≠ [] then
          { goToFirstResult := goToFirstResult,
            initialSearchTerm := some term, searchTerm := some term }
        else
          match env.queryStringQ with
          | some q =>
            if q ≠ [] then
              { goToFirstResult := goToFirstResult,
                initialSearchTerm := some (decodeURIComponentPlusJS q),
                searchTerm := none }
            else
              { goToFirstResult := goToFirstResult,
                initialSearchTerm := none, searchTerm := none }
          | none =>
            { goToFirstResult := goToFirstResult,
              initialSearchTerm := none, searchTerm := none }
      | none =>
        match env.queryStringQ with
        | some q =>
          if q ≠ [] then
            { goToFirstResult := goToFirstResult,
              initialSearchTerm := some (decodeURIComponentPlusJS q),
              searchTerm := none }
          else
            { goToFirstResult := goToFirstResult,
              initialSearchTerm := none, searchTerm := none }
        | none =>
          { goToFirstResult := goToFirstResult,
            initialSearchTerm := none, searchTerm := none }
    else
      { goToFirstResult := goToFirstResult,
        initialSearchTerm := none, searchTerm := none }
  else
    { goToFirstResult := none, initialSearchTerm := none, searchTerm := none }

/-- `BookReader.prototype.initParams()`: the returned params record, the
global `suppressFragmentChange` it assigns at the end, and the search
plugin mutations. -/
def initParams (env : InitEnv) : StartupParams × Bool × SearchPluginOut :=
  let p := initParamsAfterURL env
  (p, !p.fragmentChange, initParamsSearchOut env)

/-! ## Theorems: ParamsResolver -/

/-- The resume step flags `fragmentChange` exactly when it is enabled, has
a persisted value, and that value differs from the current default index. -/
def resumeChangesIndex (env : InitEnv) : Bool :=
  env.resumeEnabled &&
    (match env.resumeValue with
     | some val => !((initParamsAfterDefaults env).fp.index == some val)
     | none => false)

/-- The URL step flags `fragmentChange` exactly when the plugin is enabled
and the resolved URL fragment parsed to at least one key. -/
def urlHasParams (env : InitEnv) : Bool :=
  env.urlPluginEnabled && hasAnyKey (urlParamsResolved env)

theorem initParamsAfterDefaults_fc (env : InitEnv) :
    (initParamsAfterDefaults env).fragmentChange = false := by
  rw [initParamsAfterDefaults]
  by_cases hd : env.defaults ≠ []
  · rw [if_pos hd]
    rfl
  · rw [if_neg hd]
    rfl

theorem initParamsAfterResume_fc (env : InitEnv) :
    (initParamsAfterResume env).fragmentChange = resumeChangesIndex env := by
  rw [initParamsAfterResume, resumeChangesIndex]
  cases hre : env.resumeEnabled
  · simp [initParamsAfterDefaults_fc env]
  · simp only [if_pos rfl, Bool.true_and]
    cases hrv : env.resumeValue with
    | none => exact initParamsAfterDefaults_fc env
    | some val =>
      by_cases hiv : (initParamsAfterDefaults env).fp.index = some val
      · simp [hiv, initParamsAfterDefaults_fc env]
      · simp [hiv]

theorem initParamsAfterURL_fc (env : InitEnv) :
    (initParamsAfterURL env).fragmentChange =
      (resumeChangesIndex env || urlHasParams env) := by
  rw [initParamsAfterURL, urlHasParams]
  cases hu : env.urlPluginEnabled
  · simp [initParamsAfterResume_fc env]
  · simp only [if_pos rfl, Bool.true_and]
    cases hk : hasAnyKey (urlParamsResolved env)
    · simp [hk, initParamsAfterResume_fc env]
    · simp [hk]

/-- Claim C9: when `initParams` returns, the global `suppressFragmentChange`
flag is the logical negation of the returned record's `fragmentChange`, and
`fragmentChange` is set exactly by a resume-cookie difference or by URL
fragment parameters. -/
theorem initParams_suppress_negation (env : InitEnv) :
    (initParams env).2.1 = !(initParams env).1.fragmentChange ∧
    (initParams env).1.fragmentChange =
      (resumeChangesIndex env || urlHasParams env) :=
  ⟨rfl, initParamsAfterURL_fc env⟩

/-! ## NavigationController: jumpToIndex

`BookReader.prototype.jumpToIndex` resolves unviewable pages through the
`Page` object's `unviewablesStart` property and
`findNext({combineConsecutiveUnviewables: true})`, both implemented in
`BookReader/BookModel.js`, which is not under src; those two are modelled
from the spec below.  The book is a viewability predicate plus a leaf
count, and the renderer delegation at the end of `jumpToIndex` is modelled
as returning the landed index (`none` = the jump was abandoned, no event
fired, no renderer called). -/

/-- Modelled from the spec: `page.unviewablesStart`, "when not viewable,
unviewablesStart: index marking the first index of its unviewable run" —
the first index of the maximal unviewable run containing `i`. -/
def unviewablesStart (viewable : Nat → Bool) : Nat → Nat
  | 0 => 0
  | i + 1 => if viewable i then i + 1 else unviewablesStart viewable i

/-- Modelled from the spec: `page.findNext({ combineConsecutiveUnviewables:
true })?.index` — "the next viewable index after the run (skipping
consecutive unviewable pages as one unit)"; `none` when the book ends on
the unviewable run. -/
def findNextAfterRun (viewable : Nat → Bool) (numLeafs i : Nat) : Option Nat :=
  (List.range numLeafs).find? (fun j => decide (i < j) && viewable j)

/-- `BookReader.prototype._isIndexDisplayed(index)`: membership in
`displayedIndices` when that field is set (a JS array is truthy even when
empty), else comparison with `currentIndex()`. -/
def isIndexDisplayedP (displayedIndices : Option (List Nat))
    (currentIndex index : Nat) : Bool :=
  match displayedIndices with
  | some l => l.contains index
  | none => currentIndex == index

theorem unviewablesStart_idem (v : Nat → Bool) (i : Nat) :
    unviewablesStart v (unviewablesStart v i) = unviewablesStart v i := by
  induction i with
  | zero => rfl
  | succ i ih =>
    rw [unviewablesStart]
    by_cases hv : v i = true
    · rw [if_pos hv, unviewablesStart, if_pos hv]
    · rw [if_neg hv]
      exact ih

theorem findNextAfterRun_viewable {v : Nat → Bool} {numLeafs i j : Nat}
    (h : findNextAfterRun v numLeafs i = some j) : v j = true := by
  have := List.find?_some h
  simp at this
  exact this.2

/-- `BookReader.prototype.jumpToIndex(index, pageX, pageY, noAnimate)`,
with the positional arguments dropped (they are passed through to the
renderer untouched).  The JS recursion re-enters `jumpToIndex` at the
redirected index; it terminates because the redirected index is always
either viewable or the start of its own run. -/
def jumpToIndex (viewable : Nat → Bool) (numLeafs : Nat)
    (displayedIndices : Option (List Nat)) (currentIndex : Nat)
    (index : Nat) : Option Nat :=
  -- Don't jump into specific unviewable page
  if viewable index = false ∧ unviewablesStart viewable index ≠ index then
    -- If already in unviewable range (alreadyInPreview), jump to the next
    -- viewable index after the range, else to the start of the range.
    -- Rare, but a book can end on an unviewable page, hence the match.
    match hni :
      (if isIndexDisplayedP displayedIndices currentIndex
          (unviewablesStart viewable index) = true then
        findNextAfterRun viewable numLeafs index
      else some (unviewablesStart viewable index)) with
    | some n => jumpToIndex viewable numLeafs displayedIndices currentIndex n
    | none => none
  else
    some index
termination_by
  if viewable index = false ∧ unviewablesStart viewable index ≠ index then 1
  else 0
decreasing_by
  rename_i hcond
  rw [if_pos hcond]
  by_cases halready : isIndexDisplayedP displayedIndices currentIndex
      (unviewablesStart viewable index) = true
  · rw [dif_pos halready] at hni
    have hv := findNextAfterRun_viewable hni
    rw [if_neg (by simp [hv])]
    omega
  · rw [dif_neg halready] at hni
    have hn : n = unviewablesStart viewable index := (Option.some.inj hni).symm
    subst hn
    rw [if_neg (by simp [unviewablesStart_idem])]
    omega

/-- Claim C1: jumping to an unviewable index that is not its run's start
redirects: to the next viewable index after the run when the run's start is
already displayed (abandoning the jump when no such index exists), and to
the run's start otherwise. -/
theorem jumpToIndex_unviewable (v : Nat → Bool) (numLeafs : Nat)
    (disp : Option (List Nat)) (cur : Nat) (i : Nat)
    (hv : v i = false) (hstart : unviewablesStart v i ≠ i) :
    jumpToIndex v numLeafs disp cur i =
      if isIndexDisplayedP disp cur (unviewablesStart v i) = true then
        findNextAfterRun v numLeafs i
      else some (unviewablesStart v i) := by
  rw [jumpToIndex, if_pos ⟨hv, hstart⟩]
  split
  · rename_i n hni
    split
    · rename_i halready
      rw [if_pos halready] at hni
      rw [hni, jumpToIndex, if_neg (by simp [findNextAfterRun_viewable hni])]
    · rename_i halready
      rw [if_neg halready] at hni
      have hn : n = unviewablesStart v i := (Option.some.inj hni).symm
      subst hn
      rw [jumpToIndex, if_neg (by simp [unviewablesStart_idem])]
  · rename_i hni
    split
    · rename_i halready
      rw [if_pos halready] at hni
      rw [hni]
    · rename_i halready
      rw [if_neg halready] at hni
      cases hni

/-- Witness for C1 on a 20-page book whose pages 10–13 are unviewable
(run start 10, next viewable 14), and on a book that ends on an unviewable
run (pages 10–19): jumping to 12 while not showing 10 lands on 10, jumping
to 12 while showing 10 lands on 14, and the jump is abandoned when the run
reaches the end of the book. -/
theorem jumpToIndex_unviewable_witness :
    jumpToIndex (fun i => !(decide (10 ≤ i) && decide (i ≤ 13))) 20 none 0 12 =
      some 10 ∧
    jumpToIndex (fun i => !(decide (10 ≤ i) && decide (i ≤ 13))) 20 none 10 12 =
      some 14 ∧
    jumpToIndex (fun i => !(decide (10 ≤ i))) 20 none 10 12 = none := by
  refine ⟨?_, ?_, ?_⟩
  · exact (jumpToIndex_unviewable (fun i => !(decide (10 ≤ i) && decide (i ≤ 13)))
      20 none 0 12 (by decide) (by decide)).trans (by decide)
  · exact (jumpToIndex_unviewable (fun i => !(decide (10 ≤ i) && decide (i ≤ 13)))
      20 none 10 12 (by decide) (by decide)).trans (by decide)
  · exact (jumpToIndex_unviewable (fun i => !(decide (10 ≤ i)))
      20 none 10 12 (by decide) (by decide)).trans (by decide)

end BookReader
